import Mathlib

/-!
Shallow embedding of `api-server/apiserver.py` (the `Registry` class and its
helpers) from the sentry-release-registry repository, together with proofs
about the spec's claims.

Modelling conventions:
* The filesystem is an explicit tree (`FSNode`); the registry root directory
  is the root of that tree, and paths are lists of name components.
* Python exceptions are modelled by the error type `Err` together with
  `Except`: `IOError`/`OSError` become `Err.ioError`, `InvalidPathComponent`
  becomes `Err.invalidPath`, `json` decode errors and failing
  `VersionInfo.parse` become `Err.valueError`, `KeyError` becomes
  `Err.keyError`, and `TypeError`/`AttributeError` become `Err.typeError`.
* File contents are stored as parsed JSON (`FileData.json`) or as a marker
  for bytes that are not valid JSON (`FileData.invalid`), on which
  `json.load` raises a `ValueError`.
* JSON numbers are modelled as integers; no claim involves non-integer
  numbers.
-/

/-- The exception kinds the Python code can raise, collapsed to the
distinctions the code itself makes when catching exceptions. -/
inductive Err where
  | invalidPath
  | ioError
  | valueError
  | typeError
  | keyError
deriving DecidableEq, Repr

/-- Parsed JSON values (numbers restricted to integers). -/
inductive Json where
  | null
  | bool (b : Bool)
  | num (n : Int)
  | str (s : String)
  | arr (xs : List Json)
  | obj (fields : List (String × Json))

/-- Content of a file: its parsed JSON value, or a marker for bytes that are
not valid JSON (on which `json.load` raises `ValueError`). -/
inductive FileData where
  | json (j : Json)
  | invalid

/-- A filesystem node: a regular file, a directory with named entries, or a
node whose access is denied (permission error on open/list). -/
inductive FSNode where
  | file (d : FileData)
  | dir (entries : List (String × FSNode))
  | denied

/-- Look up a directory entry by name. -/
def findEntry : List (String × FSNode) → String → Option FSNode
  | [], _ => none
  | (n, node) :: rest, name => if n = name then some node else findEntry rest name

/-- Resolve a path (list of components) against a node.  Descending into a
file or a denied node fails. -/
def fsResolve : FSNode → List String → Option FSNode
  | node, [] => some node
  | .dir es, p :: ps =>
      match findEntry es p with
      | some child => fsResolve child ps
      | none => none
  | _, _ :: _ => none

/-- `os.listdir`: the entry names of a directory; anything else (missing
path, file, permission denied) raises an `OSError`. -/
def listdir (root : FSNode) (p : List String) : Except Err (List String) :=
  match fsResolve root p with
  | some (.dir es) => .ok (es.map (fun e => e.1))
  | _ => .error .ioError

/-- `open` followed by `json.load`: missing path, directory or permission
denied raise `IOError`/`OSError`; a file whose bytes are not valid JSON
raises `ValueError`. -/
def openJson (root : FSNode) (p : List String) : Except Err Json :=
  match fsResolve root p with
  | some (.file (.json j)) => .ok j
  | some (.file .invalid) => .error .valueError
  | _ => .error .ioError

/-- `os.path.exists`. -/
def pathExists (root : FSNode) (p : List String) : Bool :=
  (fsResolve root p).isSome

/-- Split a character list on a separator character, Python `str.split`
semantics: `split '/' "" = [""]`, `split '/' "a/" = ["a", ""]`. -/
def splitChar (c : Char) : List Char → List (List Char)
  | [] => [[]]
  | x :: xs =>
      match splitChar c xs with
      | h :: t => if x = c then [] :: h :: t else (x :: h) :: t
      | [] => if x = c then [[], []] else [[x]]

/-- One `'/'`-separated item of a path is acceptable when it is nonempty and
neither `.` nor `..` (the loop body of `validate_path_component`). -/
def validItem (item : List Char) : Bool :=
  !(item.isEmpty || item = ['.'] || item = ['.', '.'])

/-- `validate_path_component(path)`: raises `InvalidPathComponent` when the
path is empty or any `'/'`-separated item is empty, `.` or `..`. -/
def validate_path_component (path : String) : Except Err Unit :=
  if path.data.isEmpty then .error .invalidPath
  else if (splitChar '/' path.data).all validItem then .ok ()
  else .error .invalidPath

/-- Validate every argument in order, as the loop in `Registry._path`. -/
def validateAll : List String → Except Err Unit
  | [] => .ok ()
  | a :: rest =>
      match validate_path_component a with
      | .ok _ => validateAll rest
      | .error e => .error e

/-- `Registry._path(*args)`: validate each argument, then join.  The result
is the component list of the joined path relative to the registry root
(`os.path.join` concatenates; resolution then walks `'/'`-separated
components, so an argument containing `'/'` contributes several
components). -/
def _path (args : List String) : Except Err (List String) :=
  match validateAll args with
  | .error e => .error e
  | .ok _ =>
      .ok (args.flatMap (fun a => (splitChar '/' a.data).map (fun l => String.mk l)))

/-- Split a character list at the first `':'`. -/
def breakColonAux : List Char → Option (List Char × List Char)
  | [] => none
  | x :: xs =>
      if x = ':' then some ([], xs)
      else
        match breakColonAux xs with
        | none => none
        | some (a, b) => some (x :: a, b)

/-- Python `canonical.split(':', 1)` guarded by `':' not in canonical`:
`none` when the string has no `':'`, otherwise the parts before and after
the first `':'`. -/
def breakColon (s : String) : Option (String × String) :=
  match breakColonAux s.data with
  | none => none
  | some (a, b) => some (String.mk a, String.mk b)

/-!
Semantic versions, mirroring the `semver` Python library used for the
`key=VersionInfo.parse` sort in `get_package_versions`.  `parseVersion`
implements the library's anchored regular expression
`(0|[1-9]\d*)\.(0|[1-9]\d*)\.(0|[1-9]\d*)(-prerelease)?(+build)?`;
`versionCmp` implements its precedence comparison, which ignores build
metadata.
-/

/-- A parsed semantic version. -/
structure VersionInfo where
  major : Nat
  minor : Nat
  patch : Nat
  prerelease : Option (List String)
  build : Option (List String)
deriving DecidableEq, Repr

/-- `0 | [1-9][0-9]*`: digits without a leading zero. -/
def isNumCore (l : List Char) : Bool :=
  !l.isEmpty && l.all Char.isDigit && (l = ['0'] || l.head? ≠ some '0')

/-- Characters allowed in prerelease/build identifiers: `[0-9A-Za-z-]`. -/
def isIdentChar (c : Char) : Bool :=
  c.isDigit || c.isAlpha || c = '-'

/-- One prerelease identifier: numeric without leading zero, or
alphanumeric (at least one non-digit) over `[0-9A-Za-z-]`. -/
def isPreIdent (l : List Char) : Bool :=
  if l.all Char.isDigit then isNumCore l
  else !l.isEmpty && l.all isIdentChar

/-- One build identifier: nonempty over `[0-9A-Za-z-]`. -/
def isBuildIdent (l : List Char) : Bool :=
  !l.isEmpty && l.all isIdentChar

/-- Numeric value of a digit string. -/
def natOfDigits (l : List Char) : Nat :=
  l.foldl (fun n c => n * 10 + (c.toNat - 48)) 0

/-- Join character lists with a separator (inverse of `splitChar`). -/
def joinChar (c : Char) : List (List Char) → List Char
  | [] => []
  | [x] => x
  | x :: xs => x ++ c :: joinChar c xs

/-- Parse `major.minor.patch[-prerelease]` with optional build already
split off. -/
def parseCore (core : List Char) (build : Option (List String)) :
    Except Err VersionInfo :=
  match splitChar '-' core with
  | [] => .error .valueError
  | mmp :: rest =>
      let pre : Option (List (List Char)) :=
        if rest.isEmpty then none else some (splitChar '.' (joinChar '-' rest))
      let preOK : Bool :=
        match pre with
        | none => true
        | some ids => ids.all isPreIdent
      match splitChar '.' mmp with
      | [ma, mi, pa] =>
          if isNumCore ma && isNumCore mi && isNumCore pa && preOK then
            .ok ⟨natOfDigits ma, natOfDigits mi, natOfDigits pa,
                 pre.map (fun ids => ids.map (fun l => String.mk l)), build⟩
          else .error .valueError
      | _ => .error .valueError

/-- `VersionInfo.parse`: raises `ValueError` when the string does not match
the semver grammar. -/
def parseVersion (s : String) : Except Err VersionInfo :=
  match splitChar '+' s.data with
  | [core] => parseCore core none
  | [core, b] =>
      let bids := splitChar '.' b
      if bids.all isBuildIdent then
        parseCore core (some (bids.map (fun l => String.mk l)))
      else .error .valueError
  | _ => .error .valueError

/-- Three-way comparison on naturals. -/
def natCmp (a b : Nat) : Ordering :=
  if a < b then .lt else if b < a then .gt else .eq

/-- Lexicographic comparison of lists by an element comparator, shorter
lists ranking before their extensions. -/
def lexListCmp {A : Type} (f : A -> A -> Ordering) : List A -> List A -> Ordering
  | [], [] => .eq
  | [], _ :: _ => .lt
  | _ :: _, [] => .gt
  | a :: as, b :: bs =>
      match f a b with
      | .eq => lexListCmp f as bs
      | o => o

/-- Comparison of characters by code point. -/
def charCmp (a b : Char) : Ordering :=
  natCmp a.toNat b.toNat

/-- Lexicographic comparison of character lists by code point (Python
string comparison). -/
def charListCmp : List Char -> List Char -> Ordering :=
  lexListCmp charCmp

/-- Compare two prerelease identifiers: numeric identifiers numerically,
numeric before alphanumeric, alphanumeric lexically. -/
def identCmp (a b : String) : Ordering :=
  if a.data.all Char.isDigit then
    if b.data.all Char.isDigit then natCmp (natOfDigits a.data) (natOfDigits b.data)
    else .lt
  else if b.data.all Char.isDigit then .gt
  else charListCmp a.data b.data

/-- Compare prerelease identifier lists pairwise, a missing identifier
ranking before a present one. -/
def identListCmp : List String -> List String -> Ordering :=
  lexListCmp identCmp

/-- Compare prerelease fields: a version without prerelease ranks above
one with a prerelease. -/
def preCmp : Option (List String) → Option (List String) → Ordering
  | none, none => .eq
  | none, some _ => .gt
  | some _, none => .lt
  | some a, some b => identListCmp a b

/-- Semantic-version precedence: major, minor, patch, then prerelease;
build metadata is ignored. -/
def versionCmp (a b : VersionInfo) : Ordering :=
  (natCmp a.major b.major).then
    ((natCmp a.minor b.minor).then
      ((natCmp a.patch b.patch).then (preCmp a.prerelease b.prerelease)))

/-- Non-strict precedence order used by the stable sort. -/
def versionLeB (a b : VersionInfo) : Bool :=
  match versionCmp a b with
  | .gt => false
  | _ => true

/-- Strict precedence order. -/
def versionLtB (a b : VersionInfo) : Bool :=
  match versionCmp a b with
  | .lt => true
  | _ => false

/-- Insert into a sorted list before the first element not below `a`
(stable insertion). -/
def insertLe {α : Type} (le : α → α → Bool) (a : α) : List α → List α
  | [] => [a]
  | b :: l => if le a b then a :: b :: l else b :: insertLe le a l

/-- Stable insertion sort; for a total preorder this computes the same
list as Python's stable `sorted`. -/
def isortLe {α : Type} (le : α → α → Bool) : List α → List α
  | [] => []
  | a :: l => insertLe le a (isortLe le l)

/-!
The `Registry` operations.  `get_package` returns the loaded JSON document
(the Python `PackageInfo` is a transparent wrapper whose `to_json` is the
document itself).  Errors follow the Python code exactly: only the `try`
blocks present in the source catch anything, and they catch only
`IOError`/`OSError` (`Err.ioError`); `InvalidPathComponent`, `ValueError`,
`TypeError` and `KeyError` always propagate.
-/

/-- First binding of a key in a JSON object. -/
def lookupField : List (String × Json) → String → Option Json
  | [], _ => none
  | (k, v) :: rest, key => if k = key then some v else lookupField rest key

/-- Python `data[key]` on a parsed JSON value: `KeyError` when the key is
absent, `TypeError` when the value is not a JSON object. -/
def getItem (j : Json) (key : String) : Except Err Json :=
  match j with
  | .obj fields =>
      match lookupField fields key with
      | some v => .ok v
      | none => .error .keyError
  | _ => .error .typeError

/-- Python `data.get(key)` on a parsed JSON value: `none` when absent,
`AttributeError` (modelled as `Err.typeError`) when not an object. -/
def dictGet (j : Json) (key : String) : Except Err (Option Json) :=
  match j with
  | .obj fields => .ok (lookupField fields key)
  | _ => .error .typeError

/-- A JSON value used where Python requires `str` (canonical identifiers,
slug targets).  Non-strings make the Python code raise a `TypeError` or
`AttributeError`; both are modelled as `Err.typeError`. -/
def asStr (j : Json) : Except Err String :=
  match j with
  | .str s => .ok s
  | _ => .error .typeError

/-- `Registry.get_package(canonical, version)`: no `':'` means `None`;
otherwise split at the first `':'`, build
`packages/<registry>/<package>/<version>.json` and load it, turning
`IOError`/`OSError` into `None`. -/
def get_package (root : FSNode) (canonical : String) (version : String) :
    Except Err (Option Json) :=
  match breakColon canonical with
  | none => .ok none
  | some (registry, package) =>
      match
        (match _path ["packages", registry, package, version ++ ".json"] with
         | .error e => .error e
         | .ok p => openJson root p : Except Err Json) with
      | .ok j => .ok (some j)
      | .error .ioError => .ok none
      | .error e => .error e

/-- The loop body of `get_package_versions`: visit each directory entry,
open every `*.json` file, read its `version` field and add it to the set
`rv`.  Python's `set.add` raises a `TypeError` on unhashable values
(JSON arrays/objects); the set is modelled as a duplicate-free list in
first-insertion order. -/
def scalarBeq (a b : Json) : Bool :=
  match a, b with
  | .null, .null => true
  | .bool x, .bool y => x == y
  | .num x, .num y => x == y
  | .str x, .str y => x == y
  | _, _ => false

/-- `rv.add(v)`: error on unhashable values, otherwise add `v` unless an
equal element is already present. -/
def setAdd (rv : List Json) (v : Json) : Except Err (List Json) :=
  match v with
  | .arr _ => .error .typeError
  | .obj _ => .error .typeError
  | _ => .ok (if rv.any (fun x => scalarBeq x v) then rv else rv ++ [v])

/-- Does a filename end in `.json`? -/
def endsJson (s : String) : Bool :=
  List.isSuffixOf ".json".data s.data

def collectVersions (root : FSNode) (registry package : String) :
    List String → List Json → Except Err (List Json)
  | [], rv => .ok rv
  | f :: fs, rv =>
      if endsJson f then
        match _path ["packages", registry, package, f] with
        | .error e => .error e
        | .ok p =>
            match openJson root p with
            | .error e => .error e
            | .ok j =>
                match getItem j "version" with
                | .error e => .error e
                | .ok v =>
                    match setAdd rv v with
                    | .error e => .error e
                    | .ok rv' => collectVersions root registry package fs rv'
      else collectVersions root registry package fs rv

/-- The key function `VersionInfo.parse` applied to a collected set
element; a non-string raises `TypeError`. -/
def versionKey (j : Json) : Except Err VersionInfo :=
  match j with
  | .str s => parseVersion s
  | _ => .error .typeError

/-- Pair each element with its sort key, in order (as CPython's `sorted`
computes all keys before sorting). -/
def keyVersions : List Json → Except Err (List (Json × VersionInfo))
  | [] => .ok []
  | j :: js =>
      match versionKey j with
      | .error e => .error e
      | .ok v =>
          match keyVersions js with
          | .error e => .error e
          | .ok rest => .ok ((j, v) :: rest)

/-- Order on keyed elements used by the stable sort. -/
def keyedLe (a b : Json × VersionInfo) : Bool :=
  versionLeB a.2 b.2

/-- `sorted(rv, key=VersionInfo.parse)`. -/
def sortVersions (rv : List Json) : Except Err (List Json) :=
  match keyVersions rv with
  | .error e => .error e
  | .ok keyed => .ok ((isortLe keyedLe keyed).map (fun x => x.1))

/-- `Registry.get_package_versions(canonical)`: no `':'` means `None`;
otherwise list the package directory (nothing catches a failure here),
collect the `version` fields of all `*.json` files into a set and return
it sorted with `VersionInfo.parse` as key. -/
def get_package_versions (root : FSNode) (canonical : String) :
    Except Err (Option (List Json)) :=
  match breakColon canonical with
  | none => .ok none
  | some (registry, package) =>
      match _path ["packages", registry, package] with
      | .error e => .error e
      | .ok dirPath =>
          match listdir root dirPath with
          | .error e => .error e
          | .ok files =>
              match collectVersions root registry package files [] with
              | .error e => .error e
              | .ok rv =>
                  match sortVersions rv with
                  | .error e => .error e
                  | .ok out => .ok (some out)

/-- One entry of a registry directory inside `iter_packages`: if the entry
contains the `__NAMESPACE__` marker, yield `registry:entry/child` for every
child listed in the entry, otherwise yield `registry:entry` itself. -/
def registryItemIds (root : FSNode) (registry item : String) :
    Except Err (List String) :=
  match _path ["packages", registry, item, "__NAMESPACE__"] with
  | .error e => .error e
  | .ok markerPath =>
      if pathExists root markerPath then
        match _path ["packages", registry, item] with
        | .error e => .error e
        | .ok dirPath =>
            match listdir root dirPath with
            | .error e => .error e
            | .ok subs =>
                .ok (subs.map (fun sub => registry ++ ":" ++ item ++ "/" ++ sub))
      else
        .ok [registry ++ ":" ++ item]

/-- Accumulate `registryItemIds` over the entries of one registry. -/
def mapIds (f : String → Except Err (List String)) :
    List String → Except Err (List String)
  | [] => .ok []
  | x :: xs =>
      match f x with
      | .error e => .error e
      | .ok ids =>
          match mapIds f xs with
          | .error e => .error e
          | .ok rest => .ok (ids ++ rest)

/-- The identifiers contributed by one registry directory. -/
def registryIds (root : FSNode) (registry : String) : Except Err (List String) :=
  match _path ["packages", registry] with
  | .error e => .error e
  | .ok dirPath =>
      match listdir root dirPath with
      | .error e => .error e
      | .ok items => mapIds (registryItemIds root registry) items

/-- `Registry.iter_packages()`, as the list the generator yields (an error
anywhere aborts the iteration, as the exception would). -/
def iter_packages (root : FSNode) : Except Err (List String) :=
  match _path ["packages"] with
  | .error e => .error e
  | .ok p =>
      match listdir root p with
      | .error e => .error e
      | .ok regs => mapIds (registryIds root) regs

/-- `Registry.get_sdk(sdk_id, version)`: read `sdks/<sdk_id>/latest.json`,
take its `canonical` field and delegate to `get_package`;
`IOError`/`OSError` anywhere in that block becomes `None`. -/
def sdkLookup (root : FSNode) (sdk_id : String) (version : String) :
    Except Err (Option Json) :=
  match _path ["sdks", sdk_id, "latest.json"] with
  | .error e => .error e
  | .ok p =>
      match openJson root p with
      | .error e => .error e
      | .ok j =>
          match getItem j "canonical" with
          | .error e => .error e
          | .ok c =>
              match asStr c with
              | .error e => .error e
              | .ok canonical => get_package root canonical version

def get_sdk (root : FSNode) (sdk_id : String) (version : String) :
    Except Err (Option Json) :=
  match sdkLookup root sdk_id version with
  | .ok r => .ok r
  | .error .ioError => .ok none
  | .error e => .error e

/-- The body of the `get_sdks` loop for one link: everything inside its
`try` block, i.e. `sdkLookup` at version `latest`. -/
def sdksFold (root : FSNode) :
    List String → List (String × Json) → Except Err (List (String × Json))
  | [], rv => .ok rv
  | link :: links, rv =>
      match sdkLookup root link "latest" with
      | .ok (some pkg) => sdksFold root links (rv ++ [(link, pkg)])
      | .ok none => sdksFold root links rv
      | .error .ioError => sdksFold root links rv
      | .error e => .error e

/-- `Registry.get_sdks()`: map each SDK link directory to the latest
record of the package its `latest.json` points at; only
`IOError`/`OSError` in a link's block makes that link be skipped. -/
def get_sdks (root : FSNode) : Except Err (List (String × Json)) :=
  match _path ["sdks"] with
  | .error e => .error e
  | .ok p =>
      match listdir root p with
      | .error e => .error e
      | .ok links => sdksFold root links []

/-- `Registry.get_app(app_id, version)`: load
`apps/<app_id>/<version>.json`, `IOError`/`OSError` becoming `None`. -/
def get_app (root : FSNode) (app_id : String) (version : String) :
    Except Err (Option Json) :=
  match
    (match _path ["apps", app_id, version ++ ".json"] with
     | .error e => .error e
     | .ok p => openJson root p : Except Err Json) with
  | .ok j => .ok (some j)
  | .error .ioError => .ok none
  | .error e => .error e

/-- `Registry.get_marketing_slugs()`: load `misc/marketing-slugs.json`;
nothing catches a failure here. -/
def get_marketing_slugs (root : FSNode) : Except Err Json :=
  match _path ["misc", "marketing-slugs.json"] with
  | .error e => .error e
  | .ok p => openJson root p

/-- The resolved target of a marketing slug: a package record (for the
`sdk` and `package` types, both of which produce a bare record), or a
record paired with the definition's `integration` label. -/
inductive SlugTarget where
  | package (record : Json)
  | integration (record : Json) (label : Json)

/-- The value `resolve_marketing_slug` returns for a known slug. -/
structure SlugResolution where
  definition : Json
  target : Option SlugTarget

/-- Truthiness of `data.get(key)` in Python (`None`, `False`, `0`, `""`,
`[]`, `{}` are falsy). -/
def truthy : Option Json → Bool
  | none => false
  | some .null => false
  | some (.bool b) => b
  | some (.num n) => n != 0
  | some (.str s) => !s.isEmpty
  | some (.arr xs) => !xs.isEmpty
  | some (.obj fs) => !fs.isEmpty

/-- The underlying package of an `integration` slug: via `get_sdk` when the
definition has a truthy `sdk` field, else via `get_package` when it has a
truthy `package` field, else `None`. -/
def integrationPackage (root : FSNode) (data : Json) : Except Err (Option Json) :=
  match dictGet data "sdk" with
  | .error e => .error e
  | .ok sdkVal =>
      if truthy sdkVal then
        match getItem data "sdk" with
        | .error e => .error e
        | .ok v =>
            match asStr v with
            | .error e => .error e
            | .ok s => get_sdk root s "latest"
      else
        match dictGet data "package" with
        | .error e => .error e
        | .ok pkgVal =>
            if truthy pkgVal then
              match getItem data "package" with
              | .error e => .error e
              | .ok v =>
                  match asStr v with
                  | .error e => .error e
                  | .ok s => get_package root s "latest"
            else .ok none

/-- Is this JSON value the string `s`?  (Python `data['type'] == '...'`,
which is simply `False` for non-strings.) -/
def jsonIsStr (j : Json) (s : String) : Bool :=
  match j with
  | .str t => t == s
  | _ => false

/-- The `target` computed by `resolve_marketing_slug` for a known
definition `data`. -/
def slugTarget (root : FSNode) (data : Json) : Except Err (Option SlugTarget) :=
  match getItem data "type" with
  | .error e => .error e
  | .ok ty =>
      if jsonIsStr ty "sdk" then
        match getItem data "target" with
        | .error e => .error e
        | .ok t =>
            match asStr t with
            | .error e => .error e
            | .ok s =>
                match get_sdk root s "latest" with
                | .error e => .error e
                | .ok r => .ok (r.map SlugTarget.package)
      else if jsonIsStr ty "package" then
        match getItem data "target" with
        | .error e => .error e
        | .ok t =>
            match asStr t with
            | .error e => .error e
            | .ok s =>
                match get_package root s "latest" with
                | .error e => .error e
                | .ok r => .ok (r.map SlugTarget.package)
      else if jsonIsStr ty "integration" then
        match integrationPackage root data with
        | .error e => .error e
        | .ok none => .ok none
        | .ok (some pkg) =>
            match getItem data "integration" with
            | .error e => .error e
            | .ok label => .ok (some (SlugTarget.integration pkg label))
      else .ok none

/-- `Registry.resolve_marketing_slug(slug)`: `None` for a slug absent from
the mapping, otherwise the raw definition together with the resolved
target (or `None` target). -/
def resolve_marketing_slug (root : FSNode) (slug : String) :
    Except Err (Option SlugResolution) :=
  match get_marketing_slugs root with
  | .error e => .error e
  | .ok slugs =>
      match dictGet slugs slug with
      | .error e => .error e
      | .ok none => .ok none
      | .ok (some data) =>
          match slugTarget root data with
          | .error e => .error e
          | .ok target => .ok (some ⟨data, target⟩)

/-!
Lawful comparators.  `versionCmp` is shown to be a lawful three-way
comparator, which gives totality and transitivity of the sort order used
by `sortVersions`.
-/

/-- A lawful three-way comparator: swapping the arguments swaps the
result, `lt` is transitive, and `eq` elements compare identically against
everything. -/
structure LawCmp {α : Type} (f : α → α → Ordering) : Prop where
  symm : ∀ a b, f b a = (f a b).swap
  lt_trans : ∀ a b c, f a b = .lt → f b c = .lt → f a c = .lt
  eq_left : ∀ a b c, f a b = .eq → f a c = f b c

theorem ordering_swap_swap (o : Ordering) : o.swap.swap = o := by
  cases o <;> rfl

theorem LawCmp.eq_right {α : Type} {f : α → α → Ordering} (hf : LawCmp f)
    (a b c : α) (h : f b c = .eq) : f a b = f a c := by
  have hcb : f c b = .eq := by rw [hf.symm b c, h]; rfl
  have h2 : f c a = f b a := hf.eq_left c b a hcb
  rw [hf.symm a c, hf.symm a b] at h2
  have h3 := congrArg Ordering.swap h2
  rw [ordering_swap_swap, ordering_swap_swap] at h3
  exact h3.symm

theorem natCmp_eq_lt {a b : Nat} : natCmp a b = .lt ↔ a < b := by
  unfold natCmp
  split
  · simp [*]
  · split <;> simp <;> omega

theorem natCmp_eq_eq {a b : Nat} : natCmp a b = .eq ↔ a = b := by
  unfold natCmp
  split
  · simp; omega
  · split <;> simp <;> omega

theorem natCmp_law : LawCmp natCmp := by
  constructor
  · intro a b
    unfold natCmp
    rcases Nat.lt_trichotomy a b with h | h | h
    · simp [h, Nat.lt_asymm h, Ordering.swap]
    · simp [h, Nat.lt_irrefl, Ordering.swap]
    · simp [h, Nat.lt_asymm h, Ordering.swap]
  · intro a b c h1 h2
    rw [natCmp_eq_lt] at h1 h2 ⊢
    omega
  · intro a b c h
    rw [natCmp_eq_eq] at h
    rw [h]

theorem lexListCmp_symm {α : Type} {f : α → α → Ordering} (hf : LawCmp f) :
    ∀ as bs : List α, lexListCmp f bs as = (lexListCmp f as bs).swap := by
  intro as
  induction as with
  | nil => intro bs; cases bs <;> rfl
  | cons a as ih =>
      intro bs
      cases bs with
      | nil => rfl
      | cons b bs =>
          simp only [lexListCmp]
          rw [hf.symm a b]
          cases h : f a b <;> simp [Ordering.swap, ih bs]

theorem lexListCmp_lt_trans {α : Type} {f : α → α → Ordering} (hf : LawCmp f) :
    ∀ as bs cs : List α, lexListCmp f as bs = .lt → lexListCmp f bs cs = .lt →
      lexListCmp f as cs = .lt := by
  intro as
  induction as with
  | nil =>
      intro bs cs h1 h2
      cases bs with
      | nil => exact h2
      | cons b bs =>
          cases cs with
          | nil => cases h2
          | cons c cs => rfl
  | cons a as ih =>
      intro bs cs h1 h2
      cases bs with
      | nil => cases h1
      | cons b bs =>
          cases cs with
          | nil => cases h2
          | cons c cs =>
              simp only [lexListCmp] at h1 h2 ⊢
              cases hab : f a b <;> rw [hab] at h1
              · cases hbc : f b c <;> rw [hbc] at h2
                · rw [hf.lt_trans a b c hab hbc]
                · rw [← hf.eq_right a b c hbc, hab]
                · cases h2
              · cases hbc : f b c <;> rw [hbc] at h2
                · rw [hf.eq_left a b c hab, hbc]
                · rw [hf.eq_left a b c hab, hbc]
                  exact ih bs cs h1 h2
                · cases h2
              · cases h1

theorem lexListCmp_eq_left {α : Type} {f : α → α → Ordering} (hf : LawCmp f) :
    ∀ as bs cs : List α, lexListCmp f as bs = .eq →
      lexListCmp f as cs = lexListCmp f bs cs := by
  intro as
  induction as with
  | nil =>
      intro bs cs h
      cases bs with
      | nil => rfl
      | cons b bs => cases h
  | cons a as ih =>
      intro bs cs h
      cases bs with
      | nil => cases h
      | cons b bs =>
          simp only [lexListCmp] at h ⊢
          cases hab : f a b <;> rw [hab] at h
          · cases h
          · cases cs with
            | nil => rfl
            | cons c cs =>
                simp only [lexListCmp]
                rw [hf.eq_left a b c hab]
                cases hbc : f b c <;> simp [ih bs cs h]
          · cases h

theorem lexListCmp_law {α : Type} {f : α → α → Ordering} (hf : LawCmp f) :
    LawCmp (lexListCmp f) :=
  ⟨fun a b => lexListCmp_symm hf a b, lexListCmp_lt_trans hf, lexListCmp_eq_left hf⟩

theorem lawCmp_comap {α β : Type} {f : α → α → Ordering} (hf : LawCmp f)
    (h : β → α) : LawCmp (fun x y => f (h x) (h y)) :=
  ⟨fun a b => hf.symm (h a) (h b),
   fun a b c => hf.lt_trans (h a) (h b) (h c),
   fun a b c => hf.eq_left (h a) (h b) (h c)⟩

theorem lawCmp_then {α : Type} {f g : α → α → Ordering} (hf : LawCmp f)
    (hg : LawCmp g) : LawCmp (fun a b => (f a b).then (g a b)) := by
  constructor
  · intro a b
    rw [hf.symm a b, hg.symm a b]
    cases f a b <;> cases g a b <;> rfl
  · intro a b c h1 h2
    cases hab : f a b <;> rw [hab] at h1
    · cases hbc : f b c <;> rw [hbc] at h2
      · rw [hf.lt_trans a b c hab hbc]; rfl
      · rw [← hf.eq_right a b c hbc, hab]; rfl
      · cases h2
    · cases hbc : f b c <;> rw [hbc] at h2
      · rw [hf.eq_left a b c hab, hbc]; rfl
      · rw [hf.eq_left a b c hab, hbc]
        simp only [Ordering.then] at h1 h2 ⊢
        exact hg.lt_trans a b c h1 h2
      · cases h2
    · cases h1
  · intro a b c h
    cases hab : f a b <;> rw [hab] at h
    · cases h
    · simp only [Ordering.then] at h
      rw [hf.eq_left a b c hab, hg.eq_left a b c h]
    · cases h

theorem identCmp_law : LawCmp identCmp := by
  have hchar : LawCmp charCmp :=
    ⟨fun a b => natCmp_law.symm a.toNat b.toNat,
     fun a b c => natCmp_law.lt_trans a.toNat b.toNat c.toNat,
     fun a b c => natCmp_law.eq_left a.toNat b.toNat c.toNat⟩
  have hlist : LawCmp charListCmp := lexListCmp_law hchar
  constructor
  · intro a b
    unfold identCmp
    split_ifs <;>
      first
        | rfl
        | exact natCmp_law.symm _ _
        | exact hlist.symm _ _
  · intro a b c h1 h2
    unfold identCmp at h1 h2 ⊢
    split_ifs at h1 h2 ⊢ <;>
      first
        | rfl
        | exact natCmp_law.lt_trans _ _ _ h1 h2
        | exact hlist.lt_trans _ _ _ h1 h2
  · intro a b c h
    unfold identCmp at h ⊢
    split_ifs at h ⊢ <;>
      first
        | rfl
        | exact natCmp_law.eq_left _ _ _ h
        | exact hlist.eq_left _ _ _ h

theorem preCmp_law : LawCmp preCmp := by
  have hlist : LawCmp identListCmp := lexListCmp_law identCmp_law
  constructor
  · intro a b
    cases a <;> cases b <;> simp [preCmp, Ordering.swap]
    exact hlist.symm _ _
  · intro a b c h1 h2
    cases a <;> cases b <;> cases c <;> simp [preCmp] at h1 h2 ⊢
    exact hlist.lt_trans _ _ _ h1 h2
  · intro a b c h
    cases a <;> cases b <;> simp [preCmp] at h ⊢
    cases c <;> simp [preCmp]
    exact hlist.eq_left _ _ _ h

theorem versionCmp_law : LawCmp versionCmp := by
  have h1 : LawCmp (fun a b : VersionInfo => natCmp a.major b.major) :=
    lawCmp_comap natCmp_law (fun v => v.major)
  have h2 : LawCmp (fun a b : VersionInfo => natCmp a.minor b.minor) :=
    lawCmp_comap natCmp_law (fun v => v.minor)
  have h3 : LawCmp (fun a b : VersionInfo => natCmp a.patch b.patch) :=
    lawCmp_comap natCmp_law (fun v => v.patch)
  have h4 : LawCmp (fun a b : VersionInfo => preCmp a.prerelease b.prerelease) :=
    lawCmp_comap preCmp_law (fun v => v.prerelease)
  exact lawCmp_then h1 (lawCmp_then h2 (lawCmp_then h3 h4))

theorem keyedLe_total (a b : Json × VersionInfo) :
    keyedLe a b = true ∨ keyedLe b a = true := by
  unfold keyedLe versionLeB
  rw [versionCmp_law.symm a.2 b.2]
  cases versionCmp a.2 b.2 <;> simp [Ordering.swap]

theorem keyedLe_trans (a b c : Json × VersionInfo) (h1 : keyedLe a b = true)
    (h2 : keyedLe b c = true) : keyedLe a c = true := by
  unfold keyedLe versionLeB at h1 h2 ⊢
  cases hab : versionCmp a.2 b.2 <;> rw [hab] at h1
  · cases hbc : versionCmp b.2 c.2 <;> rw [hbc] at h2
    · rw [versionCmp_law.lt_trans a.2 b.2 c.2 hab hbc]
    · rw [← versionCmp_law.eq_right a.2 b.2 c.2 hbc, hab]
    · cases h2
  · cases hbc : versionCmp b.2 c.2 <;> rw [hbc] at h2
    · rw [versionCmp_law.eq_left a.2 b.2 c.2 hab, hbc]
    · rw [versionCmp_law.eq_left a.2 b.2 c.2 hab, hbc]
    · cases h2
  · cases h1

theorem insertLe_perm {α : Type} (le : α → α → Bool) (a : α) :
    ∀ l : List α, List.Perm (insertLe le a l) (a :: l) := by
  intro l
  induction l with
  | nil => exact List.Perm.refl _
  | cons b l ih =>
      unfold insertLe
      split
      · exact List.Perm.refl _
      · exact (ih.cons b).trans (List.Perm.swap a b l)

theorem isortLe_perm {α : Type} (le : α → α → Bool) :
    ∀ l : List α, List.Perm (isortLe le l) l := by
  intro l
  induction l with
  | nil => exact List.Perm.refl _
  | cons a l ih => exact (insertLe_perm le a (isortLe le l)).trans (ih.cons a)

theorem pairwise_insertLe {α : Type} (le : α → α → Bool)
    (htot : ∀ a b, le a b = true ∨ le b a = true)
    (htrans : ∀ a b c, le a b = true → le b c = true → le a c = true) (a : α) :
    ∀ l : List α, List.Pairwise (fun x y => le x y = true) l →
      List.Pairwise (fun x y => le x y = true) (insertLe le a l) := by
  intro l
  induction l with
  | nil => intro _; simp [insertLe]
  | cons b l ih =>
      intro h
      rw [List.pairwise_cons] at h
      obtain ⟨hb, hl⟩ := h
      unfold insertLe
      split
      case isTrue hab =>
        rw [List.pairwise_cons]
        refine ⟨?_, ?_⟩
        · intro x hx
          rcases List.mem_cons.mp hx with rfl | hx
          · exact hab
          · exact htrans a b x hab (hb x hx)
        · rw [List.pairwise_cons]
          exact ⟨hb, hl⟩
      case isFalse hab =>
        rw [List.pairwise_cons]
        refine ⟨?_, ih hl⟩
        intro x hx
        rcases List.mem_cons.mp ((insertLe_perm le a l).mem_iff.mp hx) with hxa | hx'
        · rcases htot a b with h' | h'
          · exact absurd h' hab
          · rw [hxa]
            exact h'
        · exact hb x hx'

theorem pairwise_isortLe {α : Type} (le : α → α → Bool)
    (htot : ∀ a b, le a b = true ∨ le b a = true)
    (htrans : ∀ a b c, le a b = true → le b c = true → le a c = true) :
    ∀ l : List α, List.Pairwise (fun x y => le x y = true) (isortLe le l) := by
  intro l
  induction l with
  | nil => simp [isortLe]
  | cons a l ih => exact pairwise_insertLe le htot htrans a _ ih

theorem keyVersions_map_fst :
    ∀ rv keyed, keyVersions rv = .ok keyed → keyed.map Prod.fst = rv := by
  intro rv
  induction rv with
  | nil =>
      intro keyed h
      simp [keyVersions] at h
      subst h
      rfl
  | cons j js ih =>
      intro keyed h
      simp only [keyVersions] at h
      cases hk : versionKey j <;> rw [hk] at h
      · cases h
      · cases hrest : keyVersions js <;> rw [hrest] at h
        · cases h
        · cases h
          simp [ih _ hrest]

theorem keyVersions_mem :
    ∀ rv keyed p, keyVersions rv = .ok keyed → p ∈ keyed →
      versionKey p.1 = .ok p.2 := by
  intro rv
  induction rv with
  | nil =>
      intro keyed p h hp
      simp [keyVersions] at h
      subst h
      cases hp
  | cons j js ih =>
      intro keyed p h hp
      simp only [keyVersions] at h
      cases hk : versionKey j <;> rw [hk] at h
      · cases h
      · cases hrest : keyVersions js <;> rw [hrest] at h
        · cases h
        · cases h
          rcases List.mem_cons.mp hp with rfl | hp'
          · exact hk
          · exact ih _ p hrest hp'

/-- Scalar (hashable) JSON values: everything except arrays and objects. -/
def isScalar : Json → Bool
  | .arr _ => false
  | .obj _ => false
  | _ => true

theorem scalarBeq_true_iff {a b : Json} :
    scalarBeq a b = true ↔ (isScalar a = true ∧ a = b) := by
  cases a <;> cases b <;> simp [scalarBeq, isScalar]

theorem setAdd_scalar {rv rv' : List Json} {v : Json} (h : setAdd rv v = .ok rv') :
    isScalar v = true := by
  cases v <;> first | rfl | cases h

theorem setAdd_eq {rv : List Json} {v : Json} (hv : isScalar v = true) :
    setAdd rv v = .ok (if rv.any (fun x => scalarBeq x v) then rv else rv ++ [v]) := by
  cases v <;> first | rfl | cases hv

theorem setAdd_inv {rv rv' : List Json} {v : Json} (h : setAdd rv v = .ok rv')
    (hn : rv.Nodup) (hs : ∀ j ∈ rv, isScalar j = true) :
    rv'.Nodup ∧ ∀ j ∈ rv', isScalar j = true := by
  have hv : isScalar v = true := setAdd_scalar h
  have h2 := (setAdd_eq hv).symm.trans h
  have h3 : (if rv.any (fun x => scalarBeq x v) then rv else rv ++ [v]) = rv' :=
    Except.ok.inj h2
  by_cases hany : rv.any (fun x => scalarBeq x v) = true
  · rw [if_pos hany] at h3
    rw [← h3]
    exact ⟨hn, hs⟩
  · rw [if_neg hany] at h3
    rw [← h3]
    have hnotmem : v ∉ rv := by
      intro hmem
      exact hany (List.any_eq_true.mpr ⟨v, hmem, scalarBeq_true_iff.mpr ⟨hv, rfl⟩⟩)
    constructor
    · simp [List.nodup_append, hn, hnotmem]
    · intro j hj
      rcases List.mem_append.mp hj with hj' | hj'
      · exact hs j hj'
      · rw [List.mem_singleton.mp hj']
        exact hv

theorem collectVersions_inv (root : FSNode) (registry package : String) :
    ∀ (files : List String) (rv rv' : List Json),
      rv.Nodup → (∀ j ∈ rv, isScalar j = true) →
      collectVersions root registry package files rv = .ok rv' →
      rv'.Nodup ∧ ∀ j ∈ rv', isScalar j = true := by
  intro files
  induction files with
  | nil =>
      intro rv rv' hn hs h
      have h2 : rv = rv' := Except.ok.inj h
      rw [← h2]
      exact ⟨hn, hs⟩
  | cons f fs ih =>
      intro rv rv' hn hs h
      unfold collectVersions at h
      by_cases hj : endsJson f = true
      · rw [if_pos hj] at h
        cases hp : _path ["packages", registry, package, f] <;> simp only [hp] at h
        · cases h
        · rename_i p
          cases ho : openJson root p <;> simp only [ho] at h
          · cases h
          · rename_i j
            cases hg : getItem j "version" <;> simp only [hg] at h
            · cases h
            · rename_i v
              cases ha : setAdd rv v <;> simp only [ha] at h
              · cases h
              · obtain ⟨hn', hs'⟩ := setAdd_inv ha hn hs
                exact ih _ _ hn' hs' h
      · rw [if_neg hj] at h
        exact ih _ _ hn hs h

/-!
Validation helpers: every `validate_path_component` failure is
`InvalidPathComponent`, and one invalid argument makes `_path` (and hence
any operation that builds a path from it) fail with that error for every
filesystem, i.e. before any filesystem access.
-/

theorem validate_err_eq {s : String} {e : Err}
    (h : validate_path_component s = .error e) : e = .invalidPath := by
  unfold validate_path_component at h
  split_ifs at h <;> cases h <;> rfl

theorem validateAll_error_of_mem :
    ∀ (args : List String) (s : String), s ∈ args →
      validate_path_component s = .error .invalidPath →
      validateAll args = .error .invalidPath := by
  intro args
  induction args with
  | nil => intro s hs _; cases hs
  | cons a rest ih =>
      intro s hs hv
      unfold validateAll
      cases hva : validate_path_component a
      · simp only
        rw [validate_err_eq hva]
      · simp only
        rcases List.mem_cons.mp hs with hsa | hs'
        · rw [hsa] at hv
          rw [hv] at hva
          cases hva
        · exact ih s hs' hv

theorem _path_error_of_mem {args : List String} {s : String} (hs : s ∈ args)
    (hv : validate_path_component s = .error .invalidPath) :
    _path args = .error .invalidPath := by
  unfold _path
  rw [validateAll_error_of_mem args s hs hv]

theorem get_package_invalid {root : FSNode}
    {canonical version registry package : String}
    (hc : breakColon canonical = some (registry, package))
    (hv : validate_path_component registry = .error .invalidPath ∨
          validate_path_component package = .error .invalidPath ∨
          validate_path_component (version ++ ".json") = .error .invalidPath) :
    get_package root canonical version = .error .invalidPath := by
  have hp : _path ["packages", registry, package, version ++ ".json"] =
      .error .invalidPath := by
    rcases hv with h | h | h
    · exact _path_error_of_mem (by simp) h
    · exact _path_error_of_mem (by simp) h
    · exact _path_error_of_mem (by simp) h
  unfold get_package
  simp only [hc, hp]

theorem get_package_versions_invalid {root : FSNode}
    {canonical registry package : String}
    (hc : breakColon canonical = some (registry, package))
    (hv : validate_path_component registry = .error .invalidPath ∨
          validate_path_component package = .error .invalidPath) :
    get_package_versions root canonical = .error .invalidPath := by
  have hp : _path ["packages", registry, package] = .error .invalidPath := by
    rcases hv with h | h
    · exact _path_error_of_mem (by simp) h
    · exact _path_error_of_mem (by simp) h
  unfold get_package_versions
  simp only [hc, hp]

theorem get_sdk_invalid {root : FSNode} {sdk_id version : String}
    (hv : validate_path_component sdk_id = .error .invalidPath) :
    get_sdk root sdk_id version = .error .invalidPath := by
  have hp : _path ["sdks", sdk_id, "latest.json"] = .error .invalidPath :=
    _path_error_of_mem (by simp) hv
  unfold get_sdk sdkLookup
  simp only [hp]

theorem get_app_invalid {root : FSNode} {app_id version : String}
    (hv : validate_path_component app_id = .error .invalidPath ∨
          validate_path_component (version ++ ".json") = .error .invalidPath) :
    get_app root app_id version = .error .invalidPath := by
  have hp : _path ["apps", app_id, version ++ ".json"] = .error .invalidPath := by
    rcases hv with h | h
    · exact _path_error_of_mem (by simp) h
    · exact _path_error_of_mem (by simp) h
  unfold get_app
  simp only [hp]

/-!
Claim theorems.  Each claim of the specification gets one theorem (with
witness where hypotheses are present), plus a counterexample where the
claim as stated fails on the code.
-/

/-- Claim C1, amended.  `get_package` reports every filesystem access
failure (`IOError`/`OSError`: missing file, missing directory, permission
error) uniformly as "not found".  `get_package_versions`, however, has no
exception handler: a failing directory listing (in particular a missing
package directory) propagates as an error instead of returning "not
found". -/
theorem claim_C1 (root : FSNode) (canonical version registry package : String)
    (hc : breakColon canonical = some (registry, package)) :
    (∀ p, _path ["packages", registry, package, version ++ ".json"] = .ok p →
       openJson root p = .error .ioError →
       get_package root canonical version = .ok none) ∧
    (∀ dp, _path ["packages", registry, package] = .ok dp →
       listdir root dp = .error .ioError →
       get_package_versions root canonical = .error .ioError) := by
  constructor
  · intro p hp hio
    unfold get_package
    simp only [hc, hp, hio]
  · intro dp hdp hio
    unfold get_package_versions
    simp only [hc, hdp, hio]

/-- A registry tree whose `packages` directory is empty: the package
directory `packages/a/b` does not exist. -/
def c1Root : FSNode := .dir [("packages", .dir [])]

/-- Claim C1, counterexample to the claim as stated: with the package
directory absent, `get_package` returns "not found" but
`get_package_versions` raises an `OSError` instead of returning "not
found". -/
theorem claim_C1_counterexample :
    fsResolve c1Root ["packages", "a", "b"] = none ∧
    get_package c1Root "a:b" "latest" = .ok none ∧
    get_package_versions c1Root "a:b" = .error .ioError ∧
    ¬ get_package_versions c1Root "a:b" = .ok none := by
  refine ⟨rfl, rfl, rfl, fun h => ?_⟩
  rw [show get_package_versions c1Root "a:b" = .error .ioError from rfl] at h
  cases h

/-- Claim C1, witness. -/
theorem claim_C1_witness :
    breakColon "a:b" = some ("a", "b") ∧
    _path ["packages", "a", "b", "latest" ++ ".json"] =
      .ok ["packages", "a", "b", "latest.json"] ∧
    openJson c1Root ["packages", "a", "b", "latest.json"] = .error .ioError ∧
    get_package c1Root "a:b" "latest" = .ok none ∧
    _path ["packages", "a", "b"] = .ok ["packages", "a", "b"] ∧
    listdir c1Root ["packages", "a", "b"] = .error .ioError ∧
    get_package_versions c1Root "a:b" = .error .ioError := by
  refine ⟨rfl, rfl, rfl, ?_, rfl, rfl, ?_⟩
  · exact (claim_C1 c1Root "a:b" "latest" "a" "b" rfl).1 _ rfl rfl
  · exact (claim_C1 c1Root "a:b" "latest" "a" "b" rfl).2 _ rfl rfl

/-- Claim C3.  A canonical identifier without `':'` makes both resolution
operations return "not found" without raising; the conclusion holds for
every filesystem tree `root`, so no filesystem access can influence the
result (none is attempted: the code returns before touching the path
helpers). -/
theorem claim_C3 (root : FSNode) (canonical version : String)
    (hc : breakColon canonical = none) :
    get_package root canonical version = .ok none ∧
    get_package_versions root canonical = .ok none := by
  constructor
  · unfold get_package
    simp only [hc]
  · unfold get_package_versions
    simp only [hc]

/-- Claim C3, witness. -/
theorem claim_C3_witness :
    breakColon "left-pad" = none ∧
    get_package (FSNode.dir []) "left-pad" "latest" = .ok none ∧
    get_package_versions (FSNode.dir []) "left-pad" = .ok none := by
  refine ⟨rfl, ?_, ?_⟩
  · exact (claim_C3 (FSNode.dir []) "left-pad" "latest" rfl).1
  · exact (claim_C3 (FSNode.dir []) "left-pad" "latest" rfl).2

/-- Claim C8.  Resolving version "latest" reads the literal file
`latest.json` in the package directory: whenever that file loads, its
content is the result, and any two trees that agree on that single path
give identical results — the other stored version files never influence
the outcome. -/
theorem claim_C8 (root root2 : FSNode)
    (canonical registry package : String) (p : List String)
    (hc : breakColon canonical = some (registry, package))
    (hp : _path ["packages", registry, package, "latest" ++ ".json"] = .ok p) :
    (∀ j, openJson root p = .ok j →
       get_package root canonical "latest" = .ok (some j)) ∧
    (fsResolve root p = fsResolve root2 p →
       get_package root canonical "latest" = get_package root2 canonical "latest") := by
  constructor
  · intro j hj
    unfold get_package
    simp only [hc, hp, hj]
  · intro hres
    unfold get_package
    simp only [hc, hp]
    unfold openJson
    rw [hres]

/-- Two trees sharing the same `latest.json` for `npm:left-pad` but with
different sets of other version files. -/
def c8RootA : FSNode := .dir [
  ("packages", .dir [
    ("npm", .dir [
      ("left-pad", .dir [
        ("latest.json", .file (.json (.obj [("version", .str "1.2.0")]))),
        ("9.9.9.json", .file (.json (.obj [("version", .str "9.9.9")])))])])])]

def c8RootB : FSNode := .dir [
  ("packages", .dir [
    ("npm", .dir [
      ("left-pad", .dir [
        ("latest.json", .file (.json (.obj [("version", .str "1.2.0")])))])])])]

/-- Claim C8, witness: the two trees differ in their stored versions yet
resolve "latest" identically, to the content of `latest.json`. -/
theorem claim_C8_witness :
    breakColon "npm:left-pad" = some ("npm", "left-pad") ∧
    openJson c8RootA ["packages", "npm", "left-pad", "latest.json"] =
      .ok (.obj [("version", .str "1.2.0")]) ∧
    get_package c8RootA "npm:left-pad" "latest" =
      .ok (some (.obj [("version", .str "1.2.0")])) ∧
    get_package c8RootA "npm:left-pad" "latest" =
      get_package c8RootB "npm:left-pad" "latest" := by
  refine ⟨rfl, rfl, ?_, ?_⟩
  · exact (claim_C8 c8RootA c8RootB "npm:left-pad" "npm" "left-pad"
      ["packages", "npm", "left-pad", "latest.json"] rfl rfl).1 _ rfl
  · exact (claim_C8 c8RootA c8RootB "npm:left-pad" "npm" "left-pad"
      ["packages", "npm", "left-pad", "latest.json"] rfl rfl).2 rfl

/-- Claim C9.  A canonical identifier that contains `':'` but has an empty
registry part or an empty package part makes both resolution operations
raise `InvalidPathComponent` (for every tree, i.e. before filesystem
access), rather than returning "not found". -/
theorem claim_C9 (root : FSNode) (canonical version registry package : String)
    (hc : breakColon canonical = some (registry, package))
    (hrp : registry = "" ∨ package = "") :
    get_package root canonical version = .error .invalidPath ∧
    get_package_versions root canonical = .error .invalidPath := by
  have hv : validate_path_component registry = .error .invalidPath ∨
      validate_path_component package = .error .invalidPath := by
    rcases hrp with h | h
    · left
      rw [h]
      rfl
    · right
      rw [h]
      rfl
  constructor
  · refine get_package_invalid hc ?_
    rcases hv with h | h
    · exact Or.inl h
    · exact Or.inr (Or.inl h)
  · exact get_package_versions_invalid hc hv

/-- Claim C9, witness: `":pkg"` and `"pkg:"`. -/
theorem claim_C9_witness :
    breakColon ":pkg" = some ("", "pkg") ∧
    breakColon "pkg:" = some ("pkg", "") ∧
    get_package (FSNode.dir []) ":pkg" "latest" = .error .invalidPath ∧
    get_package_versions (FSNode.dir []) ":pkg" = .error .invalidPath ∧
    get_package (FSNode.dir []) "pkg:" "latest" = .error .invalidPath ∧
    get_package_versions (FSNode.dir []) "pkg:" = .error .invalidPath := by
  refine ⟨rfl, rfl, ?_, ?_, ?_, ?_⟩
  · exact (claim_C9 (FSNode.dir []) ":pkg" "latest" "" "pkg" rfl (Or.inl rfl)).1
  · exact (claim_C9 (FSNode.dir []) ":pkg" "latest" "" "pkg" rfl (Or.inl rfl)).2
  · exact (claim_C9 (FSNode.dir []) "pkg:" "latest" "pkg" "" rfl (Or.inr rfl)).1
  · exact (claim_C9 (FSNode.dir []) "pkg:" "latest" "pkg" "" rfl (Or.inr rfl)).2

/-- The spec's wording of segment invalidity, stated for comparison with
the code's `validate_path_component`: the segment is empty, equals `.`,
equals `..`, or (after splitting on `'/'`) has a component that is empty,
`.` or `..`. -/
def segInvalidSpec (s : String) : Prop :=
  s = "" ∨ s = "." ∨ s = ".." ∨
    ∃ item ∈ splitChar '/' s.data, item = [] ∨ item = ['.'] ∨ item = ['.', '.']

theorem validItem_false_iff {i : List Char} :
    validItem i = false ↔ (i = [] ∨ i = ['.'] ∨ i = ['.', '.']) := by
  unfold validItem
  simp [List.isEmpty_iff]
  tauto

theorem validate_iff (s : String) :
    validate_path_component s = .error .invalidPath ↔ segInvalidSpec s := by
  unfold validate_path_component segInvalidSpec
  split_ifs with h1 h2
  · have hd : s.data = [] := by simpa using h1
    have hs : s = "" := String.ext hd
    constructor
    · intro _
      exact Or.inl hs
    · intro _
      rfl
  · constructor
    · intro h
      cases h
    · intro hr
      exfalso
      have hall := List.all_eq_true.mp h2
      rcases hr with he | hdot | hdot2 | ⟨item, hitem, hbad⟩
      · rw [he] at h1
        exact h1 rfl
      · subst hdot
        exact absurd (hall ['.'] (by decide)) (by decide)
      · subst hdot2
        exact absurd (hall ['.', '.'] (by decide)) (by decide)
      · have hv := hall item hitem
        rcases hbad with rfl | rfl | rfl <;> exact absurd hv (by decide)
  · constructor
    · intro _
      right; right; right
      have hne : ¬ ∀ x ∈ splitChar '/' s.data, validItem x = true :=
        fun hx => h2 (List.all_eq_true.mpr hx)
      push_neg at hne
      obtain ⟨item, hitem, hbad⟩ := hne
      refine ⟨item, hitem, ?_⟩
      refine validItem_false_iff.mp ?_
      cases hv : validItem item
      · rfl
      · exact absurd hv hbad
    · intro _
      rfl

/-- Claim C2.  `validate_path_component` rejects exactly the segments the
spec calls invalid, and every registry operation that builds a filesystem
path from an invalid input segment fails with `InvalidPathComponent`; the
conclusions hold for every filesystem tree `root`, so the failure precedes
any filesystem access. -/
theorem claim_C2 :
    (∀ s, validate_path_component s = .error .invalidPath ↔ segInvalidSpec s) ∧
    (∀ (root : FSNode) (canonical version registry package : String),
       breakColon canonical = some (registry, package) →
       (segInvalidSpec registry ∨ segInvalidSpec package ∨
        segInvalidSpec (version ++ ".json")) →
       get_package root canonical version = .error .invalidPath) ∧
    (∀ (root : FSNode) (canonical registry package : String),
       breakColon canonical = some (registry, package) →
       (segInvalidSpec registry ∨ segInvalidSpec package) →
       get_package_versions root canonical = .error .invalidPath) ∧
    (∀ (root : FSNode) (sdk_id version : String), segInvalidSpec sdk_id →
       get_sdk root sdk_id version = .error .invalidPath) ∧
    (∀ (root : FSNode) (app_id version : String),
       (segInvalidSpec app_id ∨ segInvalidSpec (version ++ ".json")) →
       get_app root app_id version = .error .invalidPath) := by
  refine ⟨validate_iff, ?_, ?_, ?_, ?_⟩
  · intro root canonical version registry package hc hv
    refine get_package_invalid hc ?_
    rcases hv with h | h | h
    · exact Or.inl ((validate_iff _).mpr h)
    · exact Or.inr (Or.inl ((validate_iff _).mpr h))
    · exact Or.inr (Or.inr ((validate_iff _).mpr h))
  · intro root canonical registry package hc hv
    refine get_package_versions_invalid hc ?_
    rcases hv with h | h
    · exact Or.inl ((validate_iff _).mpr h)
    · exact Or.inr ((validate_iff _).mpr h)
  · intro root sdk_id version hv
    exact get_sdk_invalid ((validate_iff _).mpr hv)
  · intro root app_id version hv
    refine get_app_invalid ?_
    rcases hv with h | h
    · exact Or.inl ((validate_iff _).mpr h)
    · exact Or.inr ((validate_iff _).mpr h)

/-- Claim C2, witness: `..`, `a/./b` and the empty segment are rejected by
every operation on a concrete (empty) tree. -/
theorem claim_C2_witness :
    validate_path_component ".." = .error .invalidPath ∧
    get_package (FSNode.dir []) "..:x" "latest" = .error .invalidPath ∧
    get_package_versions (FSNode.dir []) "x:a/../b" = .error .invalidPath ∧
    get_sdk (FSNode.dir []) "a/./b" "latest" = .error .invalidPath ∧
    get_app (FSNode.dir []) "" "latest" = .error .invalidPath := by
  refine ⟨rfl, ?_, ?_, ?_, ?_⟩
  · exact claim_C2.2.1 _ "..:x" "latest" ".." "x" rfl
      (Or.inl ((claim_C2.1 "..").mp rfl))
  · exact claim_C2.2.2.1 _ "x:a/../b" "x" "a/../b" rfl
      (Or.inr ((claim_C2.1 "a/../b").mp rfl))
  · exact claim_C2.2.2.2.1 _ "a/./b" "latest" ((claim_C2.1 "a/./b").mp rfl)
  · exact claim_C2.2.2.2.2 _ "" "latest" (Or.inl ((claim_C2.1 "").mp rfl))

theorem keyVersions_error_of_mem :
    ∀ (rv : List Json) (j : Json) (e : Err), j ∈ rv → versionKey j = .error e →
      ∃ e', keyVersions rv = .error e' := by
  intro rv
  induction rv with
  | nil => intro j e hj _; cases hj
  | cons a rest ih =>
      intro j e hj hk
      unfold keyVersions
      cases ha : versionKey a
      · exact ⟨_, rfl⟩
      · rcases List.mem_cons.mp hj with rfl | hj'
        · rw [hk] at ha
          cases ha
        · obtain ⟨e', he'⟩ := ih j e hj' hk
          refine ⟨e', ?_⟩
          simp only [he']

/-- Claim C10.  When the collected set of version values contains one on
which the sort key `VersionInfo.parse` fails (a string that is not valid
semver raises `ValueError`, a non-string raises `TypeError`),
`get_package_versions` raises instead of returning an ordered list. -/
theorem claim_C10 (root : FSNode) (canonical registry package : String)
    (dp : List String) (files : List String) (rv : List Json) (j : Json) (e : Err)
    (hc : breakColon canonical = some (registry, package))
    (hdp : _path ["packages", registry, package] = .ok dp)
    (hfiles : listdir root dp = .ok files)
    (hrv : collectVersions root registry package files [] = .ok rv)
    (hj : j ∈ rv) (hk : versionKey j = .error e) :
    ∃ e', get_package_versions root canonical = .error e' := by
  obtain ⟨e', he'⟩ := keyVersions_error_of_mem rv j e hj hk
  refine ⟨e', ?_⟩
  unfold get_package_versions
  simp only [hc, hdp, hfiles, hrv]
  unfold sortVersions
  simp only [he']

/-- A package directory containing one record whose `version` field is not
a valid semantic-version string. -/
def c10Root : FSNode := .dir [
  ("packages", .dir [("a", .dir [("b", .dir [
    ("bad.json", .file (.json (.obj [("version", .str "not-semver")])))])])])]

/-- Claim C10, witness: the version value `"not-semver"` makes the whole
listing raise (`ValueError` from `VersionInfo.parse`). -/
theorem claim_C10_witness :
    collectVersions c10Root "a" "b" ["bad.json"] [] =
      .ok [Json.str "not-semver"] ∧
    versionKey (Json.str "not-semver") = .error .valueError ∧
    (∃ e', get_package_versions c10Root "a:b" = .error e') ∧
    get_package_versions c10Root "a:b" = .error .valueError := by
  refine ⟨rfl, rfl, ?_, rfl⟩
  exact claim_C10 c10Root "a:b" "a" "b" ["packages", "a", "b"] ["bad.json"]
    [Json.str "not-semver"] (Json.str "not-semver") .valueError
    rfl rfl rfl rfl (List.mem_cons_self _ _) rfl

/-- Claim C4, amended.  For every package directory whose `*.json` files
yield version values that all parse, `get_package_versions` returns the
collected version values with duplicates collapsed to one entry
(`Nodup`, membership equal to the collected set), ordered ascending (non-
strictly) by semantic-version precedence.  The order is strictly
ascending only when distinct version strings have distinct precedence:
build metadata is ignored by the comparison, so e.g. `1.0.0` and
`1.0.0+x` can tie (see the counterexample). -/
theorem claim_C4 (root : FSNode) (canonical registry package : String)
    (dp : List String) (files : List String) (rv : List Json)
    (keyed : List (Json × VersionInfo)) (out : List Json)
    (hc : breakColon canonical = some (registry, package))
    (hdp : _path ["packages", registry, package] = .ok dp)
    (hfiles : listdir root dp = .ok files)
    (hrv : collectVersions root registry package files [] = .ok rv)
    (hkeyed : keyVersions rv = .ok keyed)
    (hout : out = (isortLe keyedLe keyed).map Prod.fst) :
    get_package_versions root canonical = .ok (some out) ∧
    out.Nodup ∧
    (∀ j, j ∈ out ↔ j ∈ rv) ∧
    out.Pairwise (fun a b => ∃ va vb, versionKey a = .ok va ∧
      versionKey b = .ok vb ∧ versionLeB va vb = true) := by
  subst hout
  have hperm : List.Perm (isortLe keyedLe keyed) keyed := isortLe_perm keyedLe keyed
  have hmapfst : keyed.map Prod.fst = rv := keyVersions_map_fst rv keyed hkeyed
  have hpermOut : List.Perm ((isortLe keyedLe keyed).map Prod.fst) rv := by
    rw [← hmapfst]
    exact hperm.map Prod.fst
  have hnodup : rv.Nodup := by
    refine (collectVersions_inv root registry package files [] rv List.nodup_nil ?_ hrv).1
    intro j hj
    cases hj
  refine ⟨?_, ?_, ?_, ?_⟩
  · unfold get_package_versions
    simp only [hc, hdp, hfiles, hrv]
    unfold sortVersions
    simp only [hkeyed]
  · exact hpermOut.nodup_iff.mpr hnodup
  · intro j
    exact hpermOut.mem_iff
  · have pw : List.Pairwise (fun x y => keyedLe x y = true) (isortLe keyedLe keyed) :=
      pairwise_isortLe keyedLe keyedLe_total keyedLe_trans keyed
    rw [List.pairwise_map]
    refine pw.imp_of_mem ?_
    intro p q hp hq hle
    refine ⟨p.2, q.2, ?_, ?_, hle⟩
    · exact keyVersions_mem rv keyed p hkeyed (hperm.mem_iff.mp hp)
    · exact keyVersions_mem rv keyed q hkeyed (hperm.mem_iff.mp hq)

/-- A package directory carrying `1.0.0` and `1.0.0+x`: distinct version
strings with equal semantic-version precedence. -/
def c4Root : FSNode := .dir [
  ("packages", .dir [("npm", .dir [("pkg", .dir [
    ("1.0.0.json", .file (.json (.obj [("version", .str "1.0.0")]))),
    ("build.json", .file (.json (.obj [("version", .str "1.0.0+x")])))])])])]

/-- Claim C4, counterexample to "strictly ascending": the returned list
contains two distinct version strings of equal precedence (build metadata
is ignored), so it is not strictly ascending by precedence. -/
theorem claim_C4_counterexample :
    get_package_versions c4Root "npm:pkg" =
      .ok (some [Json.str "1.0.0", Json.str "1.0.0+x"]) ∧
    (∃ v1 v2, parseVersion "1.0.0" = .ok v1 ∧ parseVersion "1.0.0+x" = .ok v2 ∧
      versionCmp v1 v2 = .eq) ∧
    ¬ List.Pairwise (fun a b => ∃ va vb, versionKey a = .ok va ∧
        versionKey b = .ok vb ∧ versionLtB va vb = true)
      [Json.str "1.0.0", Json.str "1.0.0+x"] := by
  refine ⟨rfl, ⟨_, _, rfl, rfl, rfl⟩, fun h => ?_⟩
  obtain ⟨va, vb, hka, hkb, hlt⟩ :=
    (List.pairwise_cons.mp h).1 _ (List.mem_cons_self _ _)
  cases hka
  cases hkb
  cases hlt

/-- The spec's worked example: files `1.0.0.json`, `1.2.0.json`,
`1.1.0.json`. -/
def c4wRoot : FSNode := .dir [
  ("packages", .dir [("npm", .dir [("pkg", .dir [
    ("1.0.0.json", .file (.json (.obj [("version", .str "1.0.0")]))),
    ("1.2.0.json", .file (.json (.obj [("version", .str "1.2.0")]))),
    ("1.1.0.json", .file (.json (.obj [("version", .str "1.1.0")])))])])])]

/-- Claim C4, witness: the spec's example directory yields
`["1.0.0", "1.1.0", "1.2.0"]`, duplicate-free and ordered. -/
theorem claim_C4_witness :
    get_package_versions c4wRoot "npm:pkg" =
      .ok (some [Json.str "1.0.0", Json.str "1.1.0", Json.str "1.2.0"]) ∧
    List.Nodup [Json.str "1.0.0", Json.str "1.1.0", Json.str "1.2.0"] ∧
    (∀ j, j ∈ [Json.str "1.0.0", Json.str "1.1.0", Json.str "1.2.0"] ↔
      j ∈ [Json.str "1.0.0", Json.str "1.2.0", Json.str "1.1.0"]) ∧
    List.Pairwise (fun a b => ∃ va vb, versionKey a = .ok va ∧
      versionKey b = .ok vb ∧ versionLeB va vb = true)
      [Json.str "1.0.0", Json.str "1.1.0", Json.str "1.2.0"] := by
  exact claim_C4 c4wRoot "npm:pkg" "npm" "pkg" ["packages", "npm", "pkg"]
    ["1.0.0.json", "1.2.0.json", "1.1.0.json"]
    [Json.str "1.0.0", Json.str "1.2.0", Json.str "1.1.0"]
    [(Json.str "1.0.0", ⟨1, 0, 0, none, none⟩),
     (Json.str "1.2.0", ⟨1, 2, 0, none, none⟩),
     (Json.str "1.1.0", ⟨1, 1, 0, none, none⟩)]
    [Json.str "1.0.0", Json.str "1.1.0", Json.str "1.2.0"]
    rfl rfl rfl rfl rfl rfl

/-!
Plain directory-entry names.  Real directory entries are nonempty, are
never `.` or `..`, and contain no `'/'`; such names pass
`validate_path_component`, and `_path` maps them to themselves.
-/

/-- A name as it can appear as a filesystem directory entry. -/
def plainName (s : String) : Bool :=
  !s.data.isEmpty && !(s = ".") && !(s = "..") && s.data.all (fun c => c ≠ '/')

theorem plainName_no_slash {s : String} (h : plainName s = true) :
    ∀ x ∈ s.data, x ≠ '/' := by
  unfold plainName at h
  rw [Bool.and_eq_true, Bool.and_eq_true, Bool.and_eq_true] at h
  intro x hx
  have := List.all_eq_true.mp h.2 x hx
  simpa using this

theorem splitChar_no_sep {c : Char} :
    ∀ l : List Char, (∀ x ∈ l, x ≠ c) → splitChar c l = [l] := by
  intro l
  induction l with
  | nil => intro _; rfl
  | cons x xs ih =>
      intro h
      unfold splitChar
      rw [ih (fun y hy => h y (List.mem_cons_of_mem x hy))]
      have hx : ¬ x = c := h x (List.mem_cons_self x xs)
      simp [hx]

theorem path_comp_plain {s : String} (h : plainName s = true) :
    (splitChar '/' s.data).map (fun l => String.mk l) = [s] := by
  rw [splitChar_no_sep s.data (plainName_no_slash h)]
  rfl

theorem validate_plain {s : String} (h : plainName s = true) :
    validate_path_component s = .ok () := by
  unfold plainName at h
  rw [Bool.and_eq_true, Bool.and_eq_true, Bool.and_eq_true] at h
  obtain ⟨⟨⟨he, hdot⟩, hdot2⟩, hslash⟩ := h
  have he' : s.data.isEmpty = false := by simpa using he
  have hdot' : ¬ s = "." := by simpa using hdot
  have hdot2' : ¬ s = ".." := by simpa using hdot2
  have hsp : splitChar '/' s.data = [s.data] :=
    splitChar_no_sep s.data (by
      intro x hx
      have := List.all_eq_true.mp hslash x hx
      simpa using this)
  unfold validate_path_component
  rw [if_neg (by simp [he']), hsp]
  have hvi : validItem s.data = true := by
    unfold validItem
    have h1 : ¬ s.data = ['.'] := fun hh => hdot' (String.ext hh)
    have h2 : ¬ s.data = ['.', '.'] := fun hh => hdot2' (String.ext hh)
    simp [he', h1, h2]
  rw [if_pos (by simp [hvi])]

theorem validateAll_ok :
    ∀ args : List String, (∀ a ∈ args, validate_path_component a = .ok ()) →
      validateAll args = .ok () := by
  intro args
  induction args with
  | nil => intro _; rfl
  | cons a rest ih =>
      intro h
      unfold validateAll
      rw [h a (List.mem_cons_self a rest)]
      exact ih (fun b hb => h b (List.mem_cons_of_mem a hb))

theorem flatMap_plain :
    ∀ args : List String, (∀ a ∈ args, plainName a = true) →
      args.flatMap (fun a => (splitChar '/' a.data).map (fun l => String.mk l)) =
        args := by
  intro args
  induction args with
  | nil => intro _; rfl
  | cons a rest ih =>
      intro h
      simp only [List.flatMap_cons]
      rw [path_comp_plain (h a (List.mem_cons_self a rest)),
        ih (fun b hb => h b (List.mem_cons_of_mem a hb))]
      rfl

theorem path_plain (args : List String) (h : ∀ a ∈ args, plainName a = true) :
    _path args = .ok args := by
  unfold _path
  rw [validateAll_ok args (fun a ha => validate_plain (h a ha))]
  rw [flatMap_plain args h]

theorem mapIds_mem {f : String → Except Err (List String)} :
    ∀ (xs out : List String) (x : String),
      mapIds f xs = .ok out → x ∈ xs →
      ∃ ids, f x = .ok ids ∧ ∀ i ∈ ids, i ∈ out := by
  intro xs
  induction xs with
  | nil => intro out x _ hx; cases hx
  | cons a rest ih =>
      intro out x h hx
      unfold mapIds at h
      cases ha : f a <;> simp only [ha] at h
      · cases h
      · rename_i ids1
        cases hrest : mapIds f rest <;> simp only [hrest] at h
        · cases h
        · rename_i out1
          cases h
          rcases List.mem_cons.mp hx with rfl | hx'
          · exact ⟨ids1, ha, fun i hi => List.mem_append.mpr (Or.inl hi)⟩
          · obtain ⟨ids, hids, hsub⟩ := ih out1 x hrest hx'
            exact ⟨ids, hids, fun i hi => List.mem_append.mpr (Or.inr (hsub i hi))⟩

/-- Claim C5.  In the package walk, a registry entry carrying the
`__NAMESPACE__` marker contributes exactly one identifier
`registry:entry/child` per child of the entry (as listed, so the marker
file itself is a child too) and never `registry:entry` itself, of which
all enter the walk's output; an entry without the marker contributes
exactly `registry:entry`.  Nesting is exactly one level: children are
taken from a single directory listing, never recursively. -/
theorem claim_C5 (root : FSNode) (registry item : String)
    (regs items subs allIds : List String)
    (hreg : plainName registry = true) (hitem : plainName item = true)
    (h0 : iter_packages root = .ok allIds)
    (h1 : listdir root ["packages"] = .ok regs)
    (h2 : registry ∈ regs)
    (h3 : listdir root ["packages", registry] = .ok items)
    (h4 : item ∈ items) :
    (pathExists root ["packages", registry, item, "__NAMESPACE__"] = true →
       listdir root ["packages", registry, item] = .ok subs →
       registryItemIds root registry item =
         .ok (subs.map (fun sub => registry ++ ":" ++ item ++ "/" ++ sub)) ∧
       (registry ++ ":" ++ item) ∉
         subs.map (fun sub => registry ++ ":" ++ item ++ "/" ++ sub) ∧
       ∀ sub ∈ subs, (registry ++ ":" ++ item ++ "/" ++ sub) ∈ allIds) ∧
    (pathExists root ["packages", registry, item, "__NAMESPACE__"] = false →
       registryItemIds root registry item = .ok [registry ++ ":" ++ item] ∧
       (registry ++ ":" ++ item) ∈ allIds) := by
  have hmp : _path ["packages", registry, item, "__NAMESPACE__"] =
      .ok ["packages", registry, item, "__NAMESPACE__"] := by
    refine path_plain _ ?_
    intro a ha
    rcases List.mem_cons.mp ha with rfl | ha
    · rfl
    rcases List.mem_cons.mp ha with rfl | ha
    · exact hreg
    rcases List.mem_cons.mp ha with rfl | ha
    · exact hitem
    rcases List.mem_cons.mp ha with rfl | ha
    · rfl
    cases ha
  have hpi : _path ["packages", registry, item] =
      .ok ["packages", registry, item] := by
    refine path_plain _ ?_
    intro a ha
    rcases List.mem_cons.mp ha with rfl | ha
    · rfl
    rcases List.mem_cons.mp ha with rfl | ha
    · exact hreg
    rcases List.mem_cons.mp ha with rfl | ha
    · exact hitem
    cases ha
  have hpr : _path ["packages", registry] = .ok ["packages", registry] := by
    refine path_plain _ ?_
    intro a ha
    rcases List.mem_cons.mp ha with rfl | ha
    · rfl
    rcases List.mem_cons.mp ha with rfl | ha
    · exact hreg
    cases ha
  have hp0 : _path ["packages"] = .ok ["packages"] := rfl
  unfold iter_packages at h0
  simp only [hp0, h1] at h0
  obtain ⟨rIds, hrIds, hrSub⟩ := mapIds_mem regs allIds registry h0 h2
  unfold registryIds at hrIds
  simp only [hpr, h3] at hrIds
  obtain ⟨itemIds, hitemIds, hitemSub⟩ := mapIds_mem items rIds item hrIds h4
  constructor
  · intro hmark hsubs
    have hrii : registryItemIds root registry item =
        .ok (subs.map (fun sub => registry ++ ":" ++ item ++ "/" ++ sub)) := by
      unfold registryItemIds
      simp only [hmp]
      rw [if_pos hmark]
      simp only [hpi, hsubs]
    refine ⟨hrii, ?_, ?_⟩
    · intro hmem
      obtain ⟨sub, _, heq⟩ := List.mem_map.mp hmem
      have hlen := congrArg String.length heq
      have l1 : (":" : String).length = 1 := rfl
      have l2 : ("/" : String).length = 1 := rfl
      simp only [String.length_append, l1, l2] at hlen
      omega
    · intro sub hsub
      have hids : itemIds =
          subs.map (fun sub => registry ++ ":" ++ item ++ "/" ++ sub) :=
        Except.ok.inj (hitemIds.symm.trans hrii)
      refine hrSub _ (hitemSub _ ?_)
      rw [hids]
      exact List.mem_map.mpr ⟨sub, hsub, rfl⟩
  · intro hmark
    have hrii : registryItemIds root registry item =
        .ok [registry ++ ":" ++ item] := by
      unfold registryItemIds
      simp only [hmp]
      rw [if_neg (by simp [hmark])]
    refine ⟨hrii, ?_⟩
    have hids : itemIds = [registry ++ ":" ++ item] :=
      Except.ok.inj (hitemIds.symm.trans hrii)
    refine hrSub _ (hitemSub _ ?_)
    rw [hids]
    exact List.mem_cons_self _ _

/-- A tree with one namespace entry (containing the marker and one child)
and one plain entry. -/
def c5Root : FSNode := .dir [
  ("packages", .dir [
    ("python", .dir [
      ("plain", .dir [("latest.json", .file (.json .null))]),
      ("ns", .dir [
        ("__NAMESPACE__", .file (.json .null)),
        ("flask", .dir [])])])])]

/-- Claim C5, witness: the marker entry `ns` contributes one identifier
per child and not `python:ns`; the plain entry contributes exactly
`python:plain`. -/
theorem claim_C5_witness :
    (registryItemIds c5Root "python" "ns" =
      .ok ["python:ns/__NAMESPACE__", "python:ns/flask"] ∧
     "python:ns" ∉ ["python:ns/__NAMESPACE__", "python:ns/flask"] ∧
     ∀ sub ∈ ["__NAMESPACE__", "flask"], ("python" ++ ":" ++ "ns" ++ "/" ++ sub) ∈
       ["python:plain", "python:ns/__NAMESPACE__", "python:ns/flask"]) ∧
    (registryItemIds c5Root "python" "plain" = .ok ["python:plain"] ∧
     "python:plain" ∈
       ["python:plain", "python:ns/__NAMESPACE__", "python:ns/flask"]) := by
  constructor
  · exact (claim_C5 c5Root "python" "ns" ["python"] ["plain", "ns"]
      ["__NAMESPACE__", "flask"]
      ["python:plain", "python:ns/__NAMESPACE__", "python:ns/flask"]
      rfl rfl rfl rfl (List.mem_cons_self _ _) rfl
      (List.mem_cons_of_mem _ (List.mem_cons_self _ _))).1 rfl rfl
  · exact (claim_C5 c5Root "python" "plain" ["python"] ["plain", "ns"] []
      ["python:plain", "python:ns/__NAMESPACE__", "python:ns/flask"]
      rfl rfl rfl rfl (List.mem_cons_self _ _) rfl
      (List.mem_cons_self _ _)).2 rfl

theorem sdksFold_ok (root : FSNode) :
    ∀ (links : List String) (acc : List (String × Json)),
      (∀ l ∈ links, ∀ e, sdkLookup root l "latest" = .error e → e = .ioError) →
      sdksFold root links acc = .ok (acc ++ links.filterMap (fun l =>
        match sdkLookup root l "latest" with
        | .ok (some p) => some (l, p)
        | _ => none)) := by
  intro links
  induction links with
  | nil => intro acc _; simp [sdksFold]
  | cons l rest ih =>
      intro acc h
      have hrest : ∀ l' ∈ rest, ∀ e, sdkLookup root l' "latest" = .error e →
          e = .ioError :=
        fun l' hl' => h l' (List.mem_cons_of_mem l hl')
      unfold sdksFold
      cases hl : sdkLookup root l "latest"
      case error e =>
        have he : e = .ioError := h l (List.mem_cons_self _ _) e hl
        subst he
        simp only [List.filterMap_cons, hl]
        exact ih acc hrest
      case ok val =>
        cases val
        case none =>
          simp only [List.filterMap_cons, hl]
          exact ih acc hrest
        case some p =>
          simp only [List.filterMap_cons, hl]
          rw [ih (acc ++ [(l, p)]) hrest]
          simp [List.append_assoc]

/-- Claim C7, amended.  `get_sdks` reads each link's `latest.json`, takes
its `canonical` field and maps the SDK name to the latest package record;
a link whose block fails with `IOError`/`OSError` (missing or unreadable
file) is skipped without failing the listing.  The hypothesis restricting
every link's failure to `IOError`/`OSError` is necessary: a link file with
invalid JSON, or without a `canonical` field, raises and fails the whole
listing (see the counterexample). -/
theorem claim_C7 (root : FSNode) (links : List String)
    (hlinks : listdir root ["sdks"] = .ok links)
    (h : ∀ l ∈ links, ∀ e, sdkLookup root l "latest" = .error e → e = .ioError) :
    get_sdks root = .ok (links.filterMap (fun l =>
      match sdkLookup root l "latest" with
      | .ok (some p) => some (l, p)
      | _ => none)) := by
  unfold get_sdks
  have hp : _path ["sdks"] = .ok ["sdks"] := rfl
  simp only [hp, hlinks]
  simpa using sdksFold_ok root links [] h

/-- A registry with one well-formed SDK link and one whose `latest.json`
is not valid JSON. -/
def c7Root : FSNode := .dir [
  ("packages", .dir [("npm", .dir [("lp", .dir [
    ("latest.json", .file (.json (.obj [("version", .str "1.0.0")])))])])]),
  ("sdks", .dir [
    ("bad", .dir [("latest.json", .file .invalid)]),
    ("good", .dir [("latest.json",
      .file (.json (.obj [("canonical", .str "npm:lp")])))])])]

/-- Claim C7, counterexample to the claim as stated: an invalid (non-JSON)
link file raises `ValueError`, which the `except (IOError, OSError)`
handler does not catch, so the whole listing fails instead of skipping
that SDK. -/
theorem claim_C7_counterexample :
    sdkLookup c7Root "good" "latest" =
      .ok (some (.obj [("version", .str "1.0.0")])) ∧
    openJson c7Root ["sdks", "bad", "latest.json"] = .error .valueError ∧
    get_sdks c7Root = .error .valueError ∧
    ¬ ∃ m, get_sdks c7Root = .ok m := by
  refine ⟨rfl, rfl, rfl, ?_⟩
  rintro ⟨m, hm⟩
  rw [show get_sdks c7Root = .error .valueError from rfl] at hm
  cases hm

/-- A registry with one well-formed SDK link and one link directory with
no `latest.json` at all (an `IOError` case). -/
def c7wRoot : FSNode := .dir [
  ("packages", .dir [("npm", .dir [("lp", .dir [
    ("latest.json", .file (.json (.obj [("version", .str "1.0.0")])))])])]),
  ("sdks", .dir [
    ("broken", .dir []),
    ("good", .dir [("latest.json",
      .file (.json (.obj [("canonical", .str "npm:lp")])))])])]

/-- Claim C7, witness: the link with a missing file is skipped and the
listing still maps the good link. -/
theorem claim_C7_witness :
    sdkLookup c7wRoot "broken" "latest" = .error .ioError ∧
    get_sdks c7wRoot = .ok [("good", .obj [("version", .str "1.0.0")])] := by
  refine ⟨rfl, ?_⟩
  have h := claim_C7 c7wRoot ["broken", "good"] rfl ?hio
  case hio =>
    intro l hl e he
    rcases List.mem_cons.mp hl with rfl | hl
    · rw [show sdkLookup c7wRoot "broken" "latest" = .error .ioError from rfl] at he
      exact (Except.error.inj he).symm
    rcases List.mem_cons.mp hl with rfl | hl
    · rw [show sdkLookup c7wRoot "good" "latest" =
          .ok (some (.obj [("version", .str "1.0.0")])) from rfl] at he
      cases he
    · cases hl
  exact h

/-- Claim C6.  For a slug present in the marketing-slug mapping, the
result always carries the raw definition in its `definition` field, and
the `target` field is `none` exactly when the referenced underlying
sdk/package does not resolve; a slug absent from the mapping yields "not
found". -/
theorem claim_C6 (root : FSNode) (slug : String) (m : List (String × Json))
    (hm : get_marketing_slugs root = .ok (Json.obj m)) :
    (lookupField m slug = none → resolve_marketing_slug root slug = .ok none) ∧
    (∀ data, lookupField m slug = some data →
      (∀ ty t r, getItem data "type" = .ok ty → jsonIsStr ty "sdk" = true →
         getItem data "target" = .ok (Json.str t) →
         get_sdk root t "latest" = .ok r →
         resolve_marketing_slug root slug =
           .ok (some ⟨data, r.map SlugTarget.package⟩) ∧
         (r.map SlugTarget.package = none ↔ r = none)) ∧
      (∀ ty t r, getItem data "type" = .ok ty → jsonIsStr ty "sdk" = false →
         jsonIsStr ty "package" = true →
         getItem data "target" = .ok (Json.str t) →
         get_package root t "latest" = .ok r →
         resolve_marketing_slug root slug =
           .ok (some ⟨data, r.map SlugTarget.package⟩) ∧
         (r.map SlugTarget.package = none ↔ r = none)) ∧
      (∀ ty, getItem data "type" = .ok ty → jsonIsStr ty "sdk" = false →
         jsonIsStr ty "package" = false → jsonIsStr ty "integration" = true →
         (∀ pkg lbl, integrationPackage root data = .ok (some pkg) →
            getItem data "integration" = .ok lbl →
            resolve_marketing_slug root slug =
              .ok (some ⟨data, some (SlugTarget.integration pkg lbl)⟩)) ∧
         (integrationPackage root data = .ok none →
            resolve_marketing_slug root slug = .ok (some ⟨data, none⟩)))) := by
  constructor
  · intro hl
    unfold resolve_marketing_slug
    simp only [hm, dictGet, hl]
  · intro data hl
    refine ⟨?_, ?_, ?_⟩
    · intro ty t r hty hsdk ht hr
      have hst : slugTarget root data = .ok (r.map SlugTarget.package) := by
        unfold slugTarget
        simp only [hty]
        rw [if_pos hsdk]
        simp only [ht, asStr, hr]
      refine ⟨?_, by cases r <;> simp⟩
      unfold resolve_marketing_slug
      simp only [hm, dictGet, hl, hst]
    · intro ty t r hty hsdk hpkg ht hr
      have hst : slugTarget root data = .ok (r.map SlugTarget.package) := by
        unfold slugTarget
        simp only [hty]
        rw [if_neg (by simp [hsdk]), if_pos hpkg]
        simp only [ht, asStr, hr]
      refine ⟨?_, by cases r <;> simp⟩
      unfold resolve_marketing_slug
      simp only [hm, dictGet, hl, hst]
    · intro ty hty hsdk hpkg hint
      constructor
      · intro pkg lbl hip hlbl
        have hst : slugTarget root data =
            .ok (some (SlugTarget.integration pkg lbl)) := by
          unfold slugTarget
          simp only [hty]
          rw [if_neg (by simp [hsdk]), if_neg (by simp [hpkg]), if_pos hint]
          simp only [hip, hlbl]
        unfold resolve_marketing_slug
        simp only [hm, dictGet, hl, hst]
      · intro hip
        have hst : slugTarget root data = .ok none := by
          unfold slugTarget
          simp only [hty]
          rw [if_neg (by simp [hsdk]), if_neg (by simp [hpkg]), if_pos hint]
          simp only [hip]
        unfold resolve_marketing_slug
        simp only [hm, dictGet, hl, hst]

/-- A registry with a slug mapping exercising each slug kind. -/
def c6Root : FSNode := .dir [
  ("packages", .dir [("npm", .dir [("lp", .dir [
    ("latest.json", .file (.json (.obj [("version", .str "1.0.0")])))])])]),
  ("sdks", .dir [("good", .dir [("latest.json",
    .file (.json (.obj [("canonical", .str "npm:lp")])))])]),
  ("misc", .dir [("marketing-slugs.json", .file (.json (.obj [
    ("s1", .obj [("type", .str "sdk"), ("target", .str "good")]),
    ("gone", .obj [("type", .str "sdk"), ("target", .str "nope")]),
    ("pkg", .obj [("type", .str "package"), ("target", .str "npm:lp")]),
    ("integ", .obj [("type", .str "integration"), ("sdk", .str "good"),
      ("integration", .str "flask")])])))])]

/-- Claim C6, witness: an absent slug, a resolvable sdk slug, an sdk slug
with unresolvable target (present definition, `none` target), a package
slug, and an integration slug, all on one concrete tree. -/
theorem claim_C6_witness :
    resolve_marketing_slug c6Root "zzz" = .ok none ∧
    resolve_marketing_slug c6Root "s1" =
      .ok (some ⟨.obj [("type", .str "sdk"), ("target", .str "good")],
        some (.package (.obj [("version", .str "1.0.0")]))⟩) ∧
    resolve_marketing_slug c6Root "gone" =
      .ok (some ⟨.obj [("type", .str "sdk"), ("target", .str "nope")], none⟩) ∧
    resolve_marketing_slug c6Root "pkg" =
      .ok (some ⟨.obj [("type", .str "package"), ("target", .str "npm:lp")],
        some (.package (.obj [("version", .str "1.0.0")]))⟩) ∧
    resolve_marketing_slug c6Root "integ" =
      .ok (some ⟨.obj [("type", .str "integration"), ("sdk", .str "good"),
          ("integration", .str "flask")],
        some (.integration (.obj [("version", .str "1.0.0")])
          (.str "flask"))⟩) := by
  refine ⟨?_, ?_, ?_, ?_, ?_⟩
  · exact (claim_C6 c6Root "zzz" _ rfl).1 rfl
  · exact (((claim_C6 c6Root "s1" _ rfl).2 _ rfl).1 _ "good"
      (some (.obj [("version", .str "1.0.0")])) rfl rfl rfl rfl).1
  · exact (((claim_C6 c6Root "gone" _ rfl).2 _ rfl).1 _ "nope" none
      rfl rfl rfl rfl).1
  · exact (((claim_C6 c6Root "pkg" _ rfl).2 _ rfl).2.1 _ "npm:lp"
      (some (.obj [("version", .str "1.0.0")])) rfl rfl rfl rfl rfl).1
  · exact ((((claim_C6 c6Root "integ" _ rfl).2 _ rfl).2.2 _
      rfl rfl rfl rfl).1 _ _ rfl rfl)
